import Mathlib

/-!
Shallow embedding of `ee/api/chalicelib/core/sessions_insights.py`.

Rows returned by the ClickHouse queries are modelled as association lists
from column names to cell values (`List (String × Val)`), mirroring the
Python dict rows.  Python exceptions are modelled by `Except PyError`.
Floats are modelled as exact rationals.  The SQL/connection plumbing is out
of scope (the spec excludes it); each `*_core` definition embeds the part
of the corresponding Python function that runs after `conn.execute`.
-/

namespace SessionsInsights

/-- Equality of `Except` results is decidable when both sides are. -/
instance {ε α : Type} [DecidableEq ε] [DecidableEq α] : DecidableEq (Except ε α) := fun x y =>
  match x, y with
  | .ok a, .ok b =>
    if h : a = b then isTrue (by rw [h]) else isFalse (fun hc => h (Except.ok.inj hc))
  | .error a, .error b =>
    if h : a = b then isTrue (by rw [h]) else isFalse (fun hc => h (Except.error.inj hc))
  | .ok _, .error _ => isFalse (fun hc => Except.noConfusion hc)
  | .error _, .ok _ => isFalse (fun hc => Except.noConfusion hc)

/-- Python exceptions that the embedded code can raise. -/
inductive PyError where
  | indexError
  | valueError
  | typeError
  | zeroDivisionError
  | nameError
  | assertionError
  deriving DecidableEq

/-- A cell value of a result row: Python None, int, str, or float
(floats modelled as exact rationals). -/
inductive Val where
  | none
  | int (z : Int)
  | str (s : String)
  | rat (q : ℚ)
  deriving DecidableEq

/-- Python `+` on cell values (int/float arithmetic, string concatenation);
anything else raises TypeError. -/
def Val.add : Val → Val → Except PyError Val
  | .int a, .int b => .ok (.int (a + b))
  | .int a, .rat b => .ok (.rat ((a : ℚ) + b))
  | .rat a, .int b => .ok (.rat (a + (b : ℚ)))
  | .rat a, .rat b => .ok (.rat (a + b))
  | .str a, .str b => .ok (.str (a ++ b))
  | _, _ => .error .typeError

/-- Python `-` on cell values; defined on numbers only. -/
def Val.sub : Val → Val → Except PyError Val
  | .int a, .int b => .ok (.int (a - b))
  | .int a, .rat b => .ok (.rat ((a : ℚ) - b))
  | .rat a, .int b => .ok (.rat (a - (b : ℚ)))
  | .rat a, .rat b => .ok (.rat (a - b))
  | _, _ => .error .typeError

/-- Python `/` (true division) on cell values; raises ZeroDivisionError on a
zero denominator and TypeError on non-numbers. -/
def Val.div : Val → Val → Except PyError Val
  | .int a, .int b => if b = 0 then .error .zeroDivisionError else .ok (.rat ((a : ℚ) / (b : ℚ)))
  | .int a, .rat b => if b = 0 then .error .zeroDivisionError else .ok (.rat ((a : ℚ) / b))
  | .rat a, .int b => if b = 0 then .error .zeroDivisionError else .ok (.rat (a / (b : ℚ)))
  | .rat a, .rat b => if b = 0 then .error .zeroDivisionError else .ok (.rat (a / b))
  | _, _ => .error .typeError

/-- Python `<` on cell values, as used by sort keys; numbers compare by
value, any other comparison is `false` (sort keys in the source are
numeric). -/
def Val.lt : Val → Val → Bool
  | .int a, .int b => decide (a < b)
  | .int a, .rat b => decide ((a : ℚ) < b)
  | .rat a, .int b => decide (a < (b : ℚ))
  | .rat a, .rat b => decide (a < b)
  | _, _ => false

/-- Whether a cell value is a number. -/
def Val.isNum : Val → Bool
  | .int _ => true
  | .rat _ => true
  | _ => false

/-- Whether a cell value is a Python int. -/
def Val.isInt : Val → Bool
  | .int _ => true
  | _ => false

/-- The integer carried by an int cell (0 otherwise); statement helper. -/
def valInt : Val → Int
  | .int z => z
  | _ => 0

/-- The rational carried by a numeric cell (0 otherwise); statement helper. -/
def ratOf : Val → ℚ
  | .int z => (z : ℚ)
  | .rat q => q
  | _ => 0

/-- `e[i]` on a positional row, as produced by `list(r.values())`. -/
def cellAt (e : List Val) (i : Nat) : Val := e.getD i Val.none

/-- The column `i` of a table, `table[:, i]`. -/
def colOf (rows : List (List Val)) (i : Nat) : List Val :=
  rows.map (fun e => cellAt e i)

/-- `table[table[:, i] == n]`: the rows whose cell `i` equals `n`. -/
def rowsWithKey (rows : List (List Val)) (i : Nat) (n : Val) : List (List Val) :=
  rows.filter (fun e => decide (cellAt e i = n))

/-- `columns.index(s)`: first index of a column name, ValueError if absent. -/
def idxOf (columns : List String) (s : String) : Except PyError Nat :=
  match columns.findIdx? (fun c => decide (c = s)) with
  | some i => .ok i
  | Option.none => .error .valueError

/-- numpy `.sum()` over an object column: 0 for an empty column, otherwise
the elements folded with Python `+` starting from the first element. -/
def npSumAux (acc : Val) : List Val → Except PyError Val
  | [] => .ok acc
  | x :: xs => do
    let acc2 ← Val.add acc x
    npSumAux acc2 xs

/-- numpy `.sum()` over an object column. -/
def npSum : List Val → Except PyError Val
  | [] => .ok (.int 0)
  | x :: xs => npSumAux x xs

/-- numpy `.mean()` over an object column: sum divided by length. -/
def npMean (l : List Val) : Except PyError Val := do
  let s ← npSum l
  Val.div s (.int (l.length : Int))

/-- Effectful map over a list in the `Except` monad, as a Python loop that
builds a dict key by key and propagates the first raised exception. -/
def mapExcept (f : α → Except PyError β) : List α → Except PyError (List β)
  | [] => .ok []
  | x :: xs => do
    let y ← f x
    let ys ← mapExcept f xs
    pure (y :: ys)

/-- Step of Python `sorted(l, key=snd, reverse=True)` (stable, descending):
insert an element into an already descending-sorted list, before the first
element whose key is not greater. -/
def insertDescSnd (x : Val × Val) : List (Val × Val) → List (Val × Val)
  | [] => [x]
  | y :: ys => if Val.lt x.2 y.2 then y :: insertDescSnd x ys else x :: y :: ys

/-- Python `sorted(l, key=snd, reverse=True)`. -/
def sortDescSnd : List (Val × Val) → List (Val × Val)
  | [] => []
  | x :: xs => insertDescSnd x (sortDescSnd xs)

/-- Step of Python `sorted(l, key=snd)` (stable, ascending). -/
def insertAscSnd (x : Val × Val) : List (Val × Val) → List (Val × Val)
  | [] => [x]
  | y :: ys => if Val.lt y.2 x.2 then y :: insertAscSnd x ys else x :: y :: ys

/-- Python `sorted(l, key=snd)`. -/
def sortAscSnd : List (Val × Val) → List (Val × Val)
  | [] => []
  | x :: xs => insertAscSnd x (sortAscSnd xs)

/-- Step of `rows[rows[:, ui].argsort()]`: insert a row into rows sorted
ascending by column `ui`. -/
def insertAscRow (ui : Nat) (x : List Val) : List (List Val) → List (List Val)
  | [] => [x]
  | y :: ys => if Val.lt (cellAt y ui) (cellAt x ui) then y :: insertAscRow ui x ys else x :: y :: ys

/-- `rows[rows[:, ui].argsort()]`: rows sorted ascending by column `ui`. -/
def sortAscRows (ui : Nat) : List (List Val) → List (List Val)
  | [] => []
  | x :: xs => insertAscRow ui x (sortAscRows ui xs)

/-- `if e[name_index_val] not in names: names.append(...)` -/
def addName (l : List Val) (nm : Val) : List Val :=
  if nm ∈ l then l else l ++ [nm]

/-- The scanning loop of `__get_two_values` (source lines 20-33): walk the
rows, keeping the at-most-two distinct bucket timestamps seen so far; rows
seen while one distinct timestamp is known go to `table_hh1`, rows seen
while two are known go to `table_hh2`; a row with a third distinct
timestamp stops the scan. -/
def splitLoop (ti ni : Nat) :
    List (List Val) → List Val → List (List Val) → List (List Val) → List Val → List Val →
    List (List Val) × List (List Val) × List Val × List Val
  | [], _, h1, h2, n1, n2 => (h1, h2, n1, n2)
  | e :: rest, hhVals, h1, h2, n1, n2 =>
    let t := cellAt e ti
    if ¬ t ∈ hhVals ∧ hhVals.length = 2 then (h1, h2, n1, n2)
    else
      let hhVals2 := if t ∈ hhVals then hhVals else hhVals ++ [t]
      let nm := cellAt e ni
      if hhVals2.length = 1 then
        splitLoop ti ni rest hhVals2 (h1 ++ [e]) h2 (addName n1 nm) n2
      else if hhVals2.length = 2 then
        splitLoop ti ni rest hhVals2 h1 (h2 ++ [e]) n1 (addName n2 nm)
      else
        splitLoop ti ni rest hhVals2 h1 h2 n1 n2

/-- The distinct-name accumulator after a block of rows: `addName` folded
over the rows' key cells. -/
def namesFold (ni : Nat) (n1 : List Val) (rows : List (List Val)) : List Val :=
  rows.foldl (fun acc e => addName acc (cellAt e ni)) n1

/-- Result of `__get_two_values`. -/
structure TwoValues where
  table_hh1 : List (List Val)
  table_hh2 : List (List Val)
  columns : List String
  names_hh1 : List Val
  names_hh2 : List Val
  deriving DecidableEq

/-- Embeds `__get_two_values(response, time_index, name_index)`: column
names come from the first row (IndexError on an empty response), the two
index lookups may raise ValueError, then the rows are scanned by
`splitLoop`. -/
def getTwoValues (response : List (List (String × Val))) (time_index name_index : String) :
    Except PyError TwoValues :=
  match response with
  | [] => .error .indexError
  | first :: _ => do
    let columns := first.map Prod.fst
    let ni ← idxOf columns name_index
    let ti ← idxOf columns time_index
    let table := response.map (fun r => r.map Prod.snd)
    let s := splitLoop ti ni table [] [] [] [] []
    pure ⟨s.1, s.2.1, columns, s.2.2.1, s.2.2.2⟩

/-- `[x for x in this_period if x not in last_period]` (source lines 67,
108). -/
def new_keys (cur prev : List Val) : List Val :=
  cur.filter (fun x => decide (¬ x ∈ prev))

/-- `[x for x in this_period if x not in new_keys]` (source lines 68,
109). -/
def common_keys (cur prev : List Val) : List Val :=
  cur.filter (fun x => decide (¬ x ∈ new_keys cur prev))

/-- Embeds the `percentage_errors` computation of
`query_most_errors_by_period` (source lines 116, 118-119, 122): the total
session count of the current period, then for each current-period key that
key's session sum divided by the total, sorted descending by share. -/
def errorsRatio (h1 : List (List Val)) (si ni : Nat) (keys : List Val) :
    Except PyError (List (Val × Val)) := do
  let total ← npSum (colOf h1 si)
  let pairs ← mapExcept (fun n => do
      let s ← npSum (colOf (rowsWithKey h1 ni n) si)
      let v ← Val.div s total
      pure (n, v)) keys
  pure (sortDescSnd pairs)

/-- Embeds the `error_increase` computation of
`query_most_errors_by_period` (source lines 120-121, 123).  Note: line 121
of the source sums column `names_idx` on both sides (not the sessions
column), which this embedding reproduces. -/
def errorsIncrease (h1 h2 : List (List Val)) (ni : Nat) (common : List Val) :
    Except PyError (List (Val × Val)) := do
  let pairs ← mapExcept (fun n => do
      let a ← npSum (colOf (rowsWithKey h1 ni n) ni)
      let b ← npSum (colOf (rowsWithKey h2 ni n) ni)
      let v ← Val.sub a b
      pure (n, v)) common
  pure (sortDescSnd pairs)

/-- A result dict with keys `ratio`, `increase`, `new_events`. -/
structure Report where
  ratio : List (Val × Val)
  increase : List (Val × Val)
  new_events : List Val
  deriving DecidableEq

/-- Embeds `query_most_errors_by_period` after the query returns `res`
(source lines 104-124). -/
def query_most_errors_core (res : List (List (String × Val))) : Except PyError Report := do
  let tv ← getTwoValues res ("hh") ("names")
  let new_errors := new_keys tv.names_hh1 tv.names_hh2
  let common := common_keys tv.names_hh1 tv.names_hh2
  let si ← idxOf tv.columns ("sessions")
  let ni ← idxOf tv.columns ("names")
  let ratio ← errorsRatio tv.table_hh1 si ni tv.names_hh1
  let inc ← errorsIncrease tv.table_hh1 tv.table_hh2 ni common
  pure { ratio := ratio, increase := inc, new_events := new_errors }

/-- Embeds `query_requests_by_period` after the query returns `res`
(source lines 64-86).  When `common_names` is empty the loop over it never
runs, so the use of `d1_tmp` at line 83 raises NameError; otherwise
`d1_tmp` holds the current-period rows of the last common key. -/
def query_requests_core (res : List (List (String × Val))) : Except PyError Report := do
  let tv ← getTwoValues res ("hh") ("source")
  let new_hosts := new_keys tv.names_hh1 tv.names_hh2
  let common := common_keys tv.names_hh1 tv.names_hh2
  let si ← idxOf tv.columns ("source")
  let di ← idxOf tv.columns ("avg_duration")
  let ui ← idxOf tv.columns ("success_rate")
  let deltas ← mapExcept (fun n => do
      let d1 := rowsWithKey tv.table_hh1 si n
      let d2 := rowsWithKey tv.table_hh2 si n
      let a1 ← npMean (colOf d1 di)
      let b1 ← npMean (colOf d2 di)
      let dd ← Val.sub a1 b1
      let a2 ← npMean (colOf d1 ui)
      let b2 ← npMean (colOf d2 ui)
      let ds ← Val.sub a2 b2
      pure (n, dd, ds)) common
  let ni ← idxOf tv.columns ("names")
  match common.getLast? with
  | Option.none => .error .nameError
  | some nlast => do
    let d1t := sortAscRows ui (rowsWithKey tv.table_hh1 si nlast)
    let ratio ← mapExcept (fun e => do
        let s ← Val.add (cellAt e ni) (cellAt e si)
        pure (s, cellAt e ui)) d1t
    pure { ratio := ratio,
           increase := sortAscSnd (deltas.map (fun p => (p.1, p.2.2))),
           new_events := new_hosts }

/-- Embeds `query_cpu_memory_by_period` after the query: the source
executes `return res` (line 141) before any comparison logic, so the raw
rows are returned unchanged. -/
def query_cpu_memory_core (res : List (List (String × Val))) : List (List (String × Val)) :=
  res

/-- Embeds `query_click_rage_by_period` after the query: the source
executes `return res` (line 167) before any comparison logic, so the raw
rows are returned unchanged. -/
def query_click_rage_core (res : List (List (String × Val))) : List (List (String × Val)) :=
  res

/-- One slot of the report returned by `fetch_selected`: either a computed
`ratio`/`increase`/`new_events` dict or the raw query rows. -/
inductive CategoryResult where
  | report (r : Report)
  | raw (rows : List (List (String × Val)))
  deriving DecidableEq

/-- Embeds `fetch_selected(selectedEvents, ...)` (source lines 199-213).
The external data source is modelled as a map from category name to the
rows its query returns. -/
def fetch_selected (selected : List String)
    (ds : String → List (List (String × Val))) :
    Except PyError (List (String × CategoryResult)) :=
  if selected.isEmpty then .error .assertionError
  else do
    let o1 ← if ("errors" : String) ∈ selected then
        (query_most_errors_core (ds ("errors"))).map
          (fun r => [(("errors" : String), CategoryResult.report r)])
      else .ok []
    let o2 ← if ("network" : String) ∈ selected then
        (query_requests_core (ds ("network"))).map
          (fun r => [(("network" : String), CategoryResult.report r)])
      else .ok []
    let o3 := if ("rage" : String) ∈ selected then
        [(("rage" : String), CategoryResult.raw (query_click_rage_core (ds ("rage"))))]
      else []
    let o4 := if ("resources" : String) ∈ selected then
        [(("resources" : String), CategoryResult.raw (query_cpu_memory_core (ds ("resources"))))]
      else []
    pure (o1 ++ o2 ++ o3 ++ o4)

/-- The time-step argument of `__handle_timestep`: a string token or an
int. -/
inductive TStep where
  | str (s : String)
  | int (z : Int)
  deriving DecidableEq

/-- Embeds `__handle_timestep` (source lines 37-47): the three recognized
tokens map to fixed bucket widths; any other value must be an int (an
AssertionError otherwise) and maps to a minute interval of that width. -/
def handle_timestep : TStep → Except PyError (String × Int)
  | .str s =>
    if s = "hour" then .ok ("toStartOfHour(\x7b0\x7d)", 3600)
    else if s = "day" then .ok ("toStartOfDay(\x7b0\x7d)", 24 * 3600)
    else if s = "week" then .ok ("toStartOfWeek(\x7b0\x7d)", 7 * 24 * 3600)
    else .error .assertionError
  | .int z =>
    .ok ("toStartOfInterval(\x7b0\x7d, INTERVAL " ++ toString z ++ " minute)", z * 60)

/-! Concrete inputs used by the claim theorems, their witnesses and
counterexamples. -/

/-- Five positional rows with bucket timestamps `[T2,T2,T1,T1,T0]`
(descending, three distinct values), time column 0, key column 1. -/
def sampleSplitRows : List (List Val) :=
  [[Val.int 200, Val.str "x"], [Val.int 200, Val.str "y"],
   [Val.int 100, Val.str "x"], [Val.int 100, Val.str "z"],
   [Val.int 0, Val.str "w"]]

/-- An errors-query response with two buckets sharing error name `B`,
session counts 10 (current) and 4 (previous). -/
def errorsTwoPeriods : List (List (String × Val)) :=
  [[("hh", Val.int 200), ("sessions", Val.int 10), ("names", Val.str "B"), ("sources", Val.str "")],
   [("hh", Val.int 100), ("sessions", Val.int 4), ("names", Val.str "B"), ("sources", Val.str "")]]

/-- An errors-query response whose current period has a total session
count of zero. -/
def errorsZeroTotal : List (List (String × Val)) :=
  [[("hh", Val.int 200), ("sessions", Val.int 0), ("names", Val.str "A"), ("sources", Val.str "")]]

/-- A requests-query response with a single bucket, so the current and
previous periods share no key. -/
def requestsOneBucket : List (List (String × Val)) :=
  [[("hh", Val.int 200), ("sessions", Val.int 1), ("success_rate", Val.rat 1),
    ("names", Val.str "h"), ("source", Val.str "/p"), ("avg_duration", Val.rat 5)]]

/-- A well-formed rage-query response. -/
def rageRows : List (List (String × Val)) :=
  [[("hh", Val.int 200), ("sessions", Val.int 3), ("names", Val.str "h"), ("sources", Val.str "")]]

/-- A data source on which the rage query succeeds but the errors query
returns no rows (so `__get_two_values` raises IndexError). -/
def dsErrorsEmpty : String → List (List (String × Val)) :=
  fun c => if c = "rage" then rageRows else []

/-- Current-period rows for the ratio computation: keys `A` and `B` with
session counts 10 and 30. -/
def ratioSampleRows : List (List Val) :=
  [[Val.int 200, Val.int 10, Val.str "A"], [Val.int 200, Val.int 30, Val.str "B"]]

/-! Helper lemmas shared by the claim theorems. -/

theorem ok_bind {α β : Type} (a : α) (f : α → Except PyError β) :
    (Except.ok a : Except PyError α) >>= f = f a := rfl

theorem error_bind {α β : Type} (e : PyError) (f : α → Except PyError β) :
    (Except.error e : Except PyError α) >>= f = .error e := rfl

theorem mapExcept_nil {α β : Type} (f : α → Except PyError β) : mapExcept f [] = .ok [] := rfl

theorem mapExcept_ok {α β : Type} (f : α → Except PyError β) (g : α → β) :
    ∀ l : List α, (∀ x ∈ l, f x = .ok (g x)) → mapExcept f l = .ok (l.map g) := by
  intro l
  induction l with
  | nil => intro _; rfl
  | cons x xs ih =>
    intro h
    have hx := h x (by simp)
    have hxs := ih (fun y hy => h y (by simp [hy]))
    simp [mapExcept, hx, hxs, ok_bind]

theorem mapExcept_exists {α β : Type} (f : α → Except PyError β) (P : β → Prop) :
    ∀ l : List α, (∀ x ∈ l, ∃ y, f x = .ok y ∧ P y) →
    ∃ L, mapExcept f l = .ok L ∧ ∀ y ∈ L, P y := by
  intro l
  induction l with
  | nil => intro _; exact ⟨[], rfl, by simp⟩
  | cons x xs ih =>
    intro h
    obtain ⟨y, hy, hPy⟩ := h x (by simp)
    obtain ⟨L, hL, hPL⟩ := ih (fun z hz => h z (by simp [hz]))
    refine ⟨y :: L, ?_, ?_⟩
    · simp [mapExcept, hy, hL, ok_bind]
    · intro z hz
      rcases List.mem_cons.mp hz with h1 | h1
      · exact h1 ▸ hPy
      · exact hPL z h1

theorem npSumAux_int :
    ∀ (xs : List Val) (acc : Int), (∀ v ∈ xs, v.isInt = true) →
    npSumAux (.int acc) xs = .ok (.int (acc + (xs.map valInt).sum)) := by
  intro xs
  induction xs with
  | nil => intro acc _; simp [npSumAux]
  | cons x xs ih =>
    intro acc hx
    obtain ⟨z, rfl⟩ : ∃ z, x = Val.int z := by
      have h := hx x (by simp)
      cases x <;> simp [Val.isInt] at h ⊢
    have := ih (acc + z) (fun v hv => hx v (by simp [hv]))
    simp [npSumAux, Val.add, ok_bind, this, valInt]
    ring

theorem npSum_int (l : List Val) (hl : ∀ v ∈ l, v.isInt = true) :
    npSum l = .ok (.int ((l.map valInt).sum)) := by
  cases l with
  | nil => simp [npSum]
  | cons x xs =>
    obtain ⟨z, rfl⟩ : ∃ z, x = Val.int z := by
      have h := hl x (by simp)
      cases x <;> simp [Val.isInt] at h ⊢
    have := npSumAux_int xs z (fun v hv => hl v (by simp [hv]))
    simp [npSum, this, valInt]

theorem insertDescSnd_perm (x : Val × Val) :
    ∀ l : List (Val × Val), List.Perm (insertDescSnd x l) (x :: l) := by
  intro l
  induction l with
  | nil => exact List.Perm.refl _
  | cons y ys ih =>
    rw [insertDescSnd]
    by_cases h : Val.lt x.2 y.2 = true
    · rw [if_pos h]
      exact (ih.cons y).trans (List.Perm.swap x y ys)
    · rw [if_neg h]

theorem sortDescSnd_perm : ∀ l : List (Val × Val), List.Perm (sortDescSnd l) l := by
  intro l
  induction l with
  | nil => exact List.Perm.refl _
  | cons x xs ih =>
    rw [sortDescSnd]
    exact (insertDescSnd_perm x (sortDescSnd xs)).trans (ih.cons x)

theorem val_lt_num (x y : Val) (hx : x.isNum = true) (hy : y.isNum = true) :
    Val.lt x y = decide (ratOf x < ratOf y) := by
  cases x <;> cases y <;>
    simp_all [Val.isNum, Val.lt, ratOf, decide_eq_decide, Int.cast_lt]

theorem insertDescSnd_sorted (x : Val × Val) :
    ∀ l : List (Val × Val), (x.2).isNum = true → (∀ p ∈ l, (p.2).isNum = true) →
    l.Pairwise (fun p q => ratOf q.2 ≤ ratOf p.2) →
    (insertDescSnd x l).Pairwise (fun p q => ratOf q.2 ≤ ratOf p.2) := by
  intro l
  induction l with
  | nil => intro _ _ _; simp [insertDescSnd]
  | cons y ys ih =>
    intro hx hl hs
    have hy : (y.2).isNum = true := hl y (by simp)
    obtain ⟨hhead, htail⟩ := List.pairwise_cons.mp hs
    rw [insertDescSnd]
    by_cases h : Val.lt x.2 y.2 = true
    · rw [if_pos h]
      have hxy : ratOf x.2 < ratOf y.2 := by
        rw [val_lt_num x.2 y.2 hx hy] at h
        exact of_decide_eq_true h
      refine List.pairwise_cons.mpr ⟨?_, ih hx (fun p hp => hl p (by simp [hp])) htail⟩
      intro q hq
      have hq2 := (insertDescSnd_perm x ys).mem_iff.mp hq
      rcases List.mem_cons.mp hq2 with h1 | h1
      · exact h1 ▸ le_of_lt hxy
      · exact hhead q h1
    · rw [if_neg h]
      have hyx : ratOf y.2 ≤ ratOf x.2 := by
        rw [val_lt_num x.2 y.2 hx hy] at h
        exact le_of_not_lt (of_decide_eq_false (Bool.of_not_eq_true h))
      refine List.pairwise_cons.mpr ⟨?_, hs⟩
      intro q hq
      rcases List.mem_cons.mp hq with h1 | h1
      · exact h1 ▸ hyx
      · exact le_trans (hhead q h1) hyx

theorem sortDescSnd_sorted :
    ∀ l : List (Val × Val), (∀ p ∈ l, (p.2).isNum = true) →
    (sortDescSnd l).Pairwise (fun p q => ratOf q.2 ≤ ratOf p.2) := by
  intro l
  induction l with
  | nil => intro _; simp [sortDescSnd]
  | cons x xs ih =>
    intro hl
    rw [sortDescSnd]
    have hxs : ∀ p ∈ sortDescSnd xs, (p.2).isNum = true := by
      intro p hp
      exact hl p (by simp [(sortDescSnd_perm xs).mem_iff.mp hp])
    exact insertDescSnd_sorted x (sortDescSnd xs) (hl x (by simp)) hxs
      (ih (fun p hp => hl p (by simp [hp])))

theorem list_sum_map_add {α : Type} (l : List α) (f g : α → Int) :
    (l.map (fun x => f x + g x)).sum = (l.map f).sum + (l.map g).sum := by
  induction l with
  | nil => simp
  | cons x xs ih => simp [ih]; ring

theorem sum_indicator_of_mem {β : Type} [DecidableEq β] (k : β) (w : Int) :
    ∀ keys : List β, k ∈ keys → keys.Nodup →
    (keys.map (fun n => if k = n then w else 0)).sum = w := by
  intro keys
  induction keys with
  | nil => intro h _; cases h
  | cons n ks ih =>
    intro hmem hnd
    obtain ⟨hn, hnd'⟩ := List.nodup_cons.mp hnd
    by_cases h : k = n
    · subst h
      have hz : (ks.map (fun n => if k = n then w else 0)).sum = 0 := by
        apply List.sum_eq_zero
        intro x hx
        obtain ⟨m, hm, hxm⟩ := List.mem_map.mp hx
        have : k ≠ m := fun he => hn (he ▸ hm)
        simp [← hxm, this]
      simp [hz]
    · have hmem' : k ∈ ks := by
        rcases List.mem_cons.mp hmem with h1 | h1
        · exact absurd h1 h
        · exact h1
      simp [h, ih hmem' hnd']

theorem sum_filter_partition {α β : Type} [DecidableEq β] (k : α → β) (w : α → Int)
    (keys : List β) (hnd : keys.Nodup) :
    ∀ rows : List α, (∀ e ∈ rows, k e ∈ keys) →
    (keys.map (fun n => ((rows.filter (fun e => decide (k e = n))).map w).sum)).sum =
      (rows.map w).sum := by
  intro rows
  induction rows with
  | nil => intro _; simp
  | cons e rest ih =>
    intro hattr
    have hrest := ih (fun x hx => hattr x (by simp [hx]))
    have hsplit : ∀ n : β, ((List.filter (fun x => decide (k x = n)) (e :: rest)).map w).sum =
        (if k e = n then w e else 0) +
          ((List.filter (fun x => decide (k x = n)) rest).map w).sum := by
      intro n
      by_cases h : k e = n <;> simp [List.filter_cons, h]
    simp only [hsplit]
    rw [list_sum_map_add keys (fun n => if k e = n then w e else 0)
      (fun n => ((List.filter (fun x => decide (k x = n)) rest).map w).sum)]
    rw [hrest, sum_indicator_of_mem (k e) (w e) keys (hattr e (by simp)) hnd]
    simp

theorem list_sum_div {α : Type} (l : List α) (u : α → ℚ) (c : ℚ) :
    (l.map (fun n => u n / c)).sum = (l.map u).sum / c := by
  induction l with
  | nil => simp
  | cons x xs ih => simp [ih, add_div]

theorem list_sum_intCast {α : Type} (l : List α) (u : α → ℤ) :
    (l.map (fun x => ((u x : ℤ) : ℚ))).sum = ((l.map u).sum : ℚ) := by
  induction l with
  | nil => simp
  | cons x xs ih => simp [ih]

/-! Phase lemmas for the `__get_two_values` scanning loop. -/

theorem splitLoop_phase1 (ti ni : Nat) (t0 : Val) :
    ∀ (A rest : List (List Val)) (h1 : List (List Val)) (n1 : List Val),
    (∀ e ∈ A, cellAt e ti = t0) →
    splitLoop ti ni (A ++ rest) [t0] h1 [] n1 [] =
      splitLoop ti ni rest [t0] (h1 ++ A) [] (namesFold ni n1 A) [] := by
  intro A
  induction A with
  | nil => intro rest h1 n1 _; simp [namesFold]
  | cons e A ih =>
    intro rest h1 n1 hA
    have ht : cellAt e ti = t0 := hA e (by simp)
    have hA' : ∀ x ∈ A, cellAt x ti = t0 := fun x hx => hA x (by simp [hx])
    have step : splitLoop ti ni ((e :: A) ++ rest) [t0] h1 [] n1 [] =
        splitLoop ti ni (A ++ rest) [t0] (h1 ++ [e]) [] (addName n1 (cellAt e ni)) [] := by
      simp [splitLoop, ht]
    rw [step, ih rest (h1 ++ [e]) (addName n1 (cellAt e ni)) hA']
    simp [namesFold]

theorem splitLoop_phase2 (ti ni : Nat) (t0 t1 : Val) :
    ∀ (B rest : List (List Val)) (h1 h2 : List (List Val)) (n1 n2 : List Val),
    (∀ e ∈ B, cellAt e ti = t1) →
    splitLoop ti ni (B ++ rest) [t0, t1] h1 h2 n1 n2 =
      splitLoop ti ni rest [t0, t1] h1 (h2 ++ B) n1 (namesFold ni n2 B) := by
  intro B
  induction B with
  | nil => intro rest h1 h2 n1 n2 _; simp [namesFold]
  | cons e B ih =>
    intro rest h1 h2 n1 n2 hB
    have ht : cellAt e ti = t1 := hB e (by simp)
    have hB' : ∀ x ∈ B, cellAt x ti = t1 := fun x hx => hB x (by simp [hx])
    have step : splitLoop ti ni ((e :: B) ++ rest) [t0, t1] h1 h2 n1 n2 =
        splitLoop ti ni (B ++ rest) [t0, t1] h1 (h2 ++ [e]) n1 (addName n2 (cellAt e ni)) := by
      simp [splitLoop, ht]
    rw [step, ih rest h1 (h2 ++ [e]) n1 (addName n2 (cellAt e ni)) hB']
    simp [namesFold]

theorem splitLoop_break (ti ni : Nat) (t0 t1 : Val) (C : List (List Val))
    (h1 h2 : List (List Val)) (n1 n2 : List Val)
    (hC : ∀ c cs, C = c :: cs → cellAt c ti ≠ t0 ∧ cellAt c ti ≠ t1) :
    splitLoop ti ni C [t0, t1] h1 h2 n1 n2 = (h1, h2, n1, n2) := by
  cases C with
  | nil => rfl
  | cons c cs =>
    obtain ⟨hc0, hc1⟩ := hC c cs rfl
    simp [splitLoop, hc0, hc1]

/-- **C1.** For every row list ordered descending by bucket timestamp —
presented as a block of rows carrying the first distinct timestamp `t0`,
then a block carrying the second distinct timestamp `t1`, then the
remaining rows, the first of which (if any) carries a third distinct
value — the `__get_two_values` scan assigns to `table_hh1` exactly the
first block, to `table_hh2` exactly the second block, and stops at the
first third-valued row, ignoring it and every later row regardless of
content. -/
theorem c1_split_descending_blocks (ti ni : Nat) (t0 t1 : Val)
    (a : List Val) (A : List (List Val)) (b : List Val) (B C : List (List Val))
    (hA : ∀ e ∈ a :: A, cellAt e ti = t0)
    (hB : ∀ e ∈ b :: B, cellAt e ti = t1)
    (hne : t0 ≠ t1)
    (hC : ∀ c cs, C = c :: cs → cellAt c ti ≠ t0 ∧ cellAt c ti ≠ t1) :
    (splitLoop ti ni ((a :: A) ++ (b :: B) ++ C) [] [] [] [] []).1 = a :: A ∧
      (splitLoop ti ni ((a :: A) ++ (b :: B) ++ C) [] [] [] [] []).2.1 = b :: B := by
  have hta : cellAt a ti = t0 := hA a (by simp)
  have htb : cellAt b ti = t1 := hB b (by simp)
  have hA' : ∀ x ∈ A, cellAt x ti = t0 := fun x hx => hA x (by simp [hx])
  have hB' : ∀ x ∈ B, cellAt x ti = t1 := fun x hx => hB x (by simp [hx])
  have step0 : splitLoop ti ni ((a :: A) ++ (b :: B) ++ C) [] [] [] [] [] =
      splitLoop ti ni (A ++ ((b :: B) ++ C)) [t0] [a] [] [cellAt a ni] [] := by
    simp [splitLoop, hta, addName]
  have stepb : splitLoop ti ni ((b :: B) ++ C) [t0] ([a] ++ A) [] (namesFold ni [cellAt a ni] A) [] =
      splitLoop ti ni (B ++ C) [t0, t1] ([a] ++ A) [b] (namesFold ni [cellAt a ni] A)
        [cellAt b ni] := by
    simp [splitLoop, htb, addName, Ne.symm hne]
  rw [step0, splitLoop_phase1 ti ni t0 A ((b :: B) ++ C) [a] [cellAt a ni] hA', stepb,
    splitLoop_phase2 ti ni t0 t1 B C ([a] ++ A) [b] (namesFold ni [cellAt a ni] A)
      [cellAt b ni] hB',
    splitLoop_break ti ni t0 t1 C _ _ _ _ hC]
  simp

/-- Witness for C1 at the spec's `[T2,T2,T1,T1,T0]` boundary example:
current rows are the two `T2` rows, previous rows the two `T1` rows, and
the `T0` row is dropped. -/
theorem c1_witness :
    (splitLoop 0 1 sampleSplitRows [] [] [] [] []).1 =
        [[Val.int 200, Val.str "x"], [Val.int 200, Val.str "y"]] ∧
      (splitLoop 0 1 sampleSplitRows [] [] [] [] []).2.1 =
        [[Val.int 100, Val.str "x"], [Val.int 100, Val.str "z"]] :=
  c1_split_descending_blocks 0 1 (Val.int 200) (Val.int 100)
    [Val.int 200, Val.str "x"] [[Val.int 200, Val.str "y"]]
    [Val.int 100, Val.str "x"] [[Val.int 100, Val.str "z"]]
    [[Val.int 0, Val.str "w"]]
    (by decide) (by decide) (by decide)
    (fun c cs h => by
      injection h with h1 h2
      subst h1
      exact ⟨by decide, by decide⟩)

theorem map_error {α β : Type} (e : PyError) (f : α → β) :
    (Except.error e : Except PyError α).map f = .error e := rfl

/-- **C2.** New keys are the current keys absent from the previous keys,
in current order; common keys are the current keys also present in the
previous keys (the intersection), in current order; on
`current=[A,B,C]`, `previous=[B,C,D]` this gives new `[A]` and common
`[B,C]`, with `D` excluded. -/
theorem c2_new_common_classification :
    (∀ cur prev : List Val,
        new_keys cur prev = cur.filter (fun x => decide (¬ x ∈ prev)) ∧
          common_keys cur prev = cur.filter (fun x => decide (x ∈ prev))) ∧
      new_keys [Val.str "A", Val.str "B", Val.str "C"]
          [Val.str "B", Val.str "C", Val.str "D"] = [Val.str "A"] ∧
      common_keys [Val.str "A", Val.str "B", Val.str "C"]
          [Val.str "B", Val.str "C", Val.str "D"] = [Val.str "B", Val.str "C"] := by
  refine ⟨fun cur prev => ⟨rfl, ?_⟩, by decide, by decide⟩
  unfold common_keys
  apply List.filter_congr
  intro x hx
  by_cases hp : x ∈ prev <;> simp [new_keys, List.mem_filter, hx, hp]

/-- **C3.** Evidence for the code bug: on a response whose two periods
share error name `B` with session counts 10 and 4, the increase
computation of `query_most_errors_by_period` sums the names column on
both sides (source line 121), so the subtraction of two strings raises
TypeError instead of producing the session delta 6. -/
theorem c3_increase_sums_names_column :
    query_most_errors_core errorsTwoPeriods = .error .typeError := by decide

/-- **C5 (counterexample).** `__handle_timestep` accepts the integers 0
and −5 and returns bucket widths 0 and −300; it does not fail on
non-positive integers as the claim states. -/
theorem c5_counterexample :
    handle_timestep (TStep.int 0) =
        .ok ("toStartOfInterval(\x7b0\x7d, INTERVAL 0 minute)", 0) ∧
      handle_timestep (TStep.int (-5)) =
        .ok ("toStartOfInterval(\x7b0\x7d, INTERVAL -5 minute)", -300) := by decide

/-- **C5 (amended).** `resolve` maps `hour` to 3600 seconds, `day` to
86400, `week` to 604800, and any integer n — positive, zero or negative —
to n·60 seconds; any other string token fails with the assertion error
(the `InvalidTimeStep` condition) rather than silently defaulting. -/
theorem c5_amended_resolution :
    handle_timestep (TStep.str ("hour")) = .ok ("toStartOfHour(\x7b0\x7d)", 3600) ∧
      handle_timestep (TStep.str ("day")) = .ok ("toStartOfDay(\x7b0\x7d)", 86400) ∧
      handle_timestep (TStep.str ("week")) = .ok ("toStartOfWeek(\x7b0\x7d)", 604800) ∧
      (∀ z : Int, handle_timestep (TStep.int z) =
        .ok ("toStartOfInterval(\x7b0\x7d, INTERVAL " ++ toString z ++ " minute)", z * 60)) ∧
      (∀ s : String, s ≠ "hour" → s ≠ "day" → s ≠ "week" →
        handle_timestep (TStep.str s) = .error .assertionError) := by
  refine ⟨by decide, by decide, by decide, fun z => rfl, fun s h1 h2 h3 => ?_⟩
  simp [handle_timestep, h1, h2, h3]

/-- Witness for C5 at the spec's own examples: `fortnight` fails,
15 minutes resolve to 900 seconds. -/
theorem c5_witness :
    handle_timestep (TStep.str ("fortnight")) = .error .assertionError ∧
      handle_timestep (TStep.int 15) =
        .ok ("toStartOfInterval(\x7b0\x7d, INTERVAL 15 minute)", 900) :=
  ⟨c5_amended_resolution.2.2.2.2 ("fortnight") (by decide) (by decide) (by decide),
   (c5_amended_resolution.2.2.2.1 15).trans (by decide)⟩

/-- **C7.** Evidence for the code bug: selecting the rage and resources
categories returns the raw aggregation rows of the data source in those
slots (the source functions `return res` before their comparison code),
not a compared `ratio`/`increase`/`new_events` result. -/
theorem c7_raw_rows_returned (ds : String → List (List (String × Val))) :
    fetch_selected ["rage", "resources"] ds =
      .ok [("rage", CategoryResult.raw (ds ("rage"))),
           ("resources", CategoryResult.raw (ds ("resources")))] := rfl

/-- **C8.** Evidence for the code bug: on an empty response
`__get_two_values` raises IndexError at `response[0]` instead of
returning two empty periods, and with a single distinct bucket timestamp
(so no common keys) the network pipeline raises NameError at the use of
the loop variable `d1_tmp` instead of surfacing empty deltas. -/
theorem c8_degenerate_crashes :
    getTwoValues [] ("hh") ("names") = .error .indexError ∧
      query_requests_core requestsOneBucket = .error .nameError :=
  ⟨rfl, by decide⟩

/-- **C9 (counterexample).** With a data source on which the rage query
succeeds but the errors query returns no rows, selecting both categories
makes the whole build fail with the errors category's IndexError — the
rage result, which selecting rage alone produces, is discarded. -/
theorem c9_counterexample :
    fetch_selected ["errors", "rage"] dsErrorsEmpty = .error .indexError ∧
      fetch_selected ["rage"] dsErrorsEmpty =
        .ok [("rage", CategoryResult.raw rageRows)] := by decide

/-- **C9 (amended).** A failure in one category's computation aborts the
whole build: `fetch_selected` propagates the first category error and
returns no report, discarding the other selected categories. -/
theorem c9_first_error_aborts (selected : List String)
    (ds : String → List (List (String × Val))) (err : PyError)
    (hmem : ("errors" : String) ∈ selected)
    (herr : query_most_errors_core (ds ("errors")) = .error err) :
    fetch_selected selected ds = .error err := by
  have hub : selected.isEmpty = false := by
    cases selected with
    | nil => cases hmem
    | cons a l => rfl
  simp [fetch_selected, hub, hmem, herr, map_error, error_bind]

/-- Witness for C9: the errors query failing on empty rows aborts a
build that also selected rage. -/
theorem c9_witness :
    fetch_selected ["errors", "rage"] dsErrorsEmpty = .error .indexError :=
  c9_first_error_aborts ["errors", "rage"] dsErrorsEmpty .indexError (by decide) (by decide)

/-- **C10.** A non-empty selection containing none of the four recognized
category names passes the only validation (non-emptiness) and produces an
empty report without error and without running any category pipeline. -/
theorem c10_unrecognized_ignored (selected : List String)
    (ds : String → List (List (String × Val)))
    (hne : selected ≠ [])
    (he : ¬ ("errors" : String) ∈ selected) (hn : ¬ ("network" : String) ∈ selected)
    (hr : ¬ ("rage" : String) ∈ selected) (hs : ¬ ("resources" : String) ∈ selected) :
    fetch_selected selected ds = .ok [] := by
  have hub : selected.isEmpty = false := by
    cases selected with
    | nil => exact absurd rfl hne
    | cons a l => rfl
  simp [fetch_selected, hub, he, hn, hr, hs, ok_bind]

/-- Witness for C10: the unrecognized selection `["foo"]` yields an empty
report. -/
theorem c10_witness : fetch_selected ["foo"] (fun _ => []) = .ok [] :=
  c10_unrecognized_ignored ["foo"] (fun _ => []) (by decide) (by decide) (by decide)
    (by decide) (by decide)

theorem colOf_isInt (h1 : List (List Val)) (si : Nat)
    (hint : ∀ e ∈ h1, (cellAt e si).isInt = true) :
    ∀ v ∈ colOf h1 si, v.isInt = true := by
  intro v hv
  obtain ⟨e, he, rfl⟩ := List.mem_map.mp hv
  exact hint e he

theorem colOf_rowsWithKey_isInt (h1 : List (List Val)) (si ni : Nat) (n : Val)
    (hint : ∀ e ∈ h1, (cellAt e si).isInt = true) :
    ∀ v ∈ colOf (rowsWithKey h1 ni n) si, v.isInt = true := by
  intro v hv
  obtain ⟨e, he, rfl⟩ := List.mem_map.mp hv
  exact hint e (List.mem_filter.mp he).1

/-- **C6 (counterexample).** On a current period whose total session count
is zero, the errors pipeline raises a division-by-zero error — a bare
division exception, not any `NoDataInPeriod` condition. -/
theorem c6_counterexample :
    query_most_errors_core errorsZeroTotal = .error .zeroDivisionError := by decide

/-- **C6 (amended).** If the total current-period session count is zero
(and there is at least one current-period key) the errors/rage share
computation raises ZeroDivisionError — there is no `NoDataInPeriod`
condition; when the total is non-zero it succeeds and every share is a
finite rational, never NaN or infinity. -/
theorem c6_zero_total_division (h1 : List (List Val)) (si ni : Nat) (keys : List Val)
    (hint : ∀ e ∈ h1, (cellAt e si).isInt = true) (hk : keys ≠ []) :
    (((colOf h1 si).map valInt).sum = 0 →
        errorsRatio h1 si ni keys = .error .zeroDivisionError) ∧
      (((colOf h1 si).map valInt).sum ≠ 0 →
        ∃ L, errorsRatio h1 si ni keys = .ok L ∧ ∀ p ∈ L, ∃ q : ℚ, p.2 = .rat q) := by
  have htot : npSum (colOf h1 si) = .ok (.int (((colOf h1 si).map valInt).sum)) :=
    npSum_int _ (colOf_isInt h1 si hint)
  constructor
  · intro h0
    rw [h0] at htot
    cases keys with
    | nil => exact absurd rfl hk
    | cons k ks =>
      have hSk : npSum (colOf (rowsWithKey h1 ni k) si) =
          .ok (.int (((colOf (rowsWithKey h1 ni k) si).map valInt).sum)) :=
        npSum_int _ (colOf_rowsWithKey_isInt h1 si ni k hint)
      simp [errorsRatio, htot, ok_bind, mapExcept, hSk, Val.div, error_bind]
  · intro hT
    obtain ⟨L, hL, hP⟩ := mapExcept_exists
      (fun n => do
        let s ← npSum (colOf (rowsWithKey h1 ni n) si)
        let v ← Val.div s (.int (((colOf h1 si).map valInt).sum))
        pure (n, v))
      (fun y => ∃ q : ℚ, y.2 = .rat q) keys
      (by
        intro n _
        have hS : npSum (colOf (rowsWithKey h1 ni n) si) =
            .ok (.int (((colOf (rowsWithKey h1 ni n) si).map valInt).sum)) :=
          npSum_int _ (colOf_rowsWithKey_isInt h1 si ni n hint)
        refine ⟨(n, Val.rat ((((colOf (rowsWithKey h1 ni n) si).map valInt).sum : ℚ) /
          (((colOf h1 si).map valInt).sum : ℚ))), ?_, ?_⟩
        · simp [hS, ok_bind, Val.div, hT]
        · exact ⟨_, rfl⟩)
    refine ⟨sortDescSnd L, ?_, ?_⟩
    · simp only [errorsRatio, htot, ok_bind, hL]
      rfl
    · intro p hp
      exact hP p ((sortDescSnd_perm L).mem_iff.mp hp)

/-- Witness for C6 at a one-row current period with zero sessions: the
share computation raises ZeroDivisionError. -/
theorem c6_witness :
    errorsRatio [[Val.int 200, Val.int 0, Val.str "A"]] 1 2 [Val.str "A"] =
      .error .zeroDivisionError :=
  (c6_zero_total_division [[Val.int 200, Val.int 0, Val.str "A"]] 1 2 [Val.str "A"]
    (by decide) (by decide)).1 (by decide)

/-- **C4.** For the errors category the ratio is, for each current-period
key, that key's current-period session sum divided by the total
current-period session sum, sorted descending by share; when every
current-period row's key is among the keys (and the keys are distinct, as
the splitter produces them), the shares sum to exactly 1. -/
theorem c4_errors_ratio_shares (h1 : List (List Val)) (si ni : Nat) (keys : List Val)
    (hint : ∀ e ∈ h1, (cellAt e si).isInt = true)
    (hattr : ∀ e ∈ h1, cellAt e ni ∈ keys)
    (hnd : keys.Nodup)
    (hT : ((colOf h1 si).map valInt).sum ≠ 0) :
    ∃ L, errorsRatio h1 si ni keys = .ok L ∧
      List.Perm L (keys.map (fun n =>
        (n, Val.rat ((((colOf (rowsWithKey h1 ni n) si).map valInt).sum : ℚ) /
          (((colOf h1 si).map valInt).sum : ℚ))))) ∧
      L.Pairwise (fun p q => ratOf q.2 ≤ ratOf p.2) ∧
      (L.map (fun p => ratOf p.2)).sum = 1 := by
  have htot : npSum (colOf h1 si) = .ok (.int (((colOf h1 si).map valInt).sum)) :=
    npSum_int _ (colOf_isInt h1 si hint)
  have hmap : mapExcept
      (fun n => do
        let s ← npSum (colOf (rowsWithKey h1 ni n) si)
        let v ← Val.div s (.int (((colOf h1 si).map valInt).sum))
        pure (n, v)) keys =
      .ok (keys.map (fun n =>
        (n, Val.rat ((((colOf (rowsWithKey h1 ni n) si).map valInt).sum : ℚ) /
          (((colOf h1 si).map valInt).sum : ℚ))))) := by
    apply mapExcept_ok
    intro n _
    have hS : npSum (colOf (rowsWithKey h1 ni n) si) =
        .ok (.int (((colOf (rowsWithKey h1 ni n) si).map valInt).sum)) :=
      npSum_int _ (colOf_rowsWithKey_isInt h1 si ni n hint)
    simp [hS, ok_bind, Val.div, hT]
  refine ⟨sortDescSnd (keys.map (fun n =>
    (n, Val.rat ((((colOf (rowsWithKey h1 ni n) si).map valInt).sum : ℚ) /
      (((colOf h1 si).map valInt).sum : ℚ))))), ?_, ?_, ?_, ?_⟩
  · simp only [errorsRatio, htot, ok_bind, hmap]
    rfl
  · exact sortDescSnd_perm _
  · apply sortDescSnd_sorted
    intro p hp
    obtain ⟨n, _, rfl⟩ := List.mem_map.mp hp
    rfl
  · have hperm := (sortDescSnd_perm (keys.map (fun n =>
      (n, Val.rat ((((colOf (rowsWithKey h1 ni n) si).map valInt).sum : ℚ) /
        (((colOf h1 si).map valInt).sum : ℚ)))))).map (fun p => ratOf p.2)
    rw [hperm.sum_eq, List.map_map]
    have hbody : ((fun p : Val × Val => ratOf p.2) ∘ (fun n =>
        (n, Val.rat ((((colOf (rowsWithKey h1 ni n) si).map valInt).sum : ℚ) /
          (((colOf h1 si).map valInt).sum : ℚ))))) = (fun n =>
        ((((colOf (rowsWithKey h1 ni n) si).map valInt).sum : ℚ) /
          (((colOf h1 si).map valInt).sum : ℚ))) := by
      funext n
      rfl
    rw [hbody, list_sum_div, list_sum_intCast]
    have hpart : (keys.map (fun n =>
        ((colOf (rowsWithKey h1 ni n) si).map valInt).sum)).sum =
        ((colOf h1 si).map valInt).sum := by
      have hw := sum_filter_partition (fun e => cellAt e ni)
        (fun e => valInt (cellAt e si)) keys hnd h1 hattr
      have hcol : ∀ rows : List (List Val), ((colOf rows si).map valInt).sum =
          (rows.map (fun e => valInt (cellAt e si))).sum := by
        intro rows
        rw [colOf, List.map_map]
        rfl
      rw [hcol h1, ← hw]
      congr 1
      apply List.map_congr_left
      intro n _
      rw [hcol (rowsWithKey h1 ni n)]
      rfl
    rw [hpart]
    exact div_self (Int.cast_ne_zero.mpr hT)

/-- Witness for C4 on two keys with session counts 10 and 30: shares
3/4 and 1/4, descending, summing to 1. -/
theorem c4_witness :
    ∃ L, errorsRatio ratioSampleRows 1 2 [Val.str "A", Val.str "B"] = .ok L ∧
      List.Perm L ([Val.str "A", Val.str "B"].map (fun n =>
        (n, Val.rat ((((colOf (rowsWithKey ratioSampleRows 2 n) 1).map valInt).sum : ℚ) /
          (((colOf ratioSampleRows 1).map valInt).sum : ℚ))))) ∧
      L.Pairwise (fun p q => ratOf q.2 ≤ ratOf p.2) ∧
      (L.map (fun p => ratOf p.2)).sum = 1 :=
  c4_errors_ratio_shares ratioSampleRows 1 2 [Val.str "A", Val.str "B"]
    (by decide) (by decide) (by decide) (by decide)

end SessionsInsights
